import Mathlib

/-!
A shallow embedding of the reconciliation pipeline of `pccs_cvr/main.py`:
the inventory deduplicator `cleanse_k8s_resouces_csv` and the
match/group/sort/emit stage `generate_final_report`, together with
theorems settling the specification's claims about them.

Python strings are modelled as Lean `String` (a list of unicode code
points, matching Python's semantics for the operations the code uses);
Python's `str.split(',')`, `str.endswith`, string comparison and the
stable `list.sort` are embedded as the executable functions `pySplit`,
`pyEndsWith`, `pyStrLt` and `pySort` below.
-/

/-- A raw inventory row, as produced by the kubectl snapshot: the five
columns `NAMESPACE, PARENT_KIND, PARENT_NAME, IMAGE, IMAGEID` plus any
additional columns (for example an optional `LABELS` column), modelled
as an association list of extra column names to values.  The Python code
accesses the dictionary only through the five fixed keys. -/
structure RawRow where
  NAMESPACE : String
  PARENT_KIND : String
  PARENT_NAME : String
  IMAGE : String
  IMAGEID : String
  extra : List (String × String)
deriving DecidableEq

/-- A cleansed inventory row: exactly the five fields the deduplicator
emits (`new_row` in `cleanse_k8s_resouces_csv`, lines 126-132). -/
structure CleanRow where
  NAMESPACE : String
  PARENT_KIND : String
  PARENT_NAME : String
  IMAGE : String
  IMAGEID : String
deriving DecidableEq

/-- A scan-report row, with the four columns `generate_final_report`
reads: `ImageId, AssetName, Severity, Name`. -/
structure WizRow where
  ImageId : String
  AssetName : String
  Severity : String
  Name : String
deriving DecidableEq

/-- The grouping key built at lines 175-182 of `generate_final_report`:
`(NAMESPACE, PARENT_KIND, PARENT_NAME, IMAGE, AssetName, Severity)`. -/
structure GroupKey where
  NAMESPACE : String
  PARENT_KIND : String
  PARENT_NAME : String
  IMAGE : String
  AssetName : String
  Severity : String
deriving DecidableEq

/-- A final report row (lines 194-204 of `generate_final_report`). -/
structure ReportRow where
  Cluster : String
  Image : String
  AssetName : String
  Severity : String
  CVEs : String
  ScanDate : String
  Namespace : String
  ParentKind : String
  ParentName : String
deriving DecidableEq

/-- Python's `str.split(sep)` for a one-character separator, on the
underlying character list: splits at every occurrence of `sep`, keeping
empty components (so `"".split(',') = [""]` and `"a,".split(',') =
["a", ""]`). -/
def pySplitChars (sep : Char) : List Char → List (List Char)
  | [] => [[]]
  | c :: cs =>
    if c = sep then [] :: pySplitChars sep cs
    else
      match pySplitChars sep cs with
      | [] => [[c]]
      | t :: ts => (c :: t) :: ts

/-- Python's `s.split(sep)` on strings. -/
def pySplit (s : String) (sep : Char) : List String :=
  (pySplitChars sep s.data).map String.mk

/-- Python's `s.endswith(suffix)`: the character sequence of `suffix`
is a suffix of the character sequence of `s`. -/
def pyEndsWith (s suffix : String) : Bool :=
  suffix.data.isSuffixOf s.data

/-- Python's `<` on single characters: comparison of code points. -/
def pyCharLt (a b : Char) : Bool :=
  decide (a.toNat < b.toNat)

/-- Python's `<` on strings: lexicographic comparison of the character
lists by code point. -/
def pyCharsLt : List Char → List Char → Bool
  | [], [] => false
  | [], _ :: _ => true
  | _ :: _, [] => false
  | a :: as, b :: bs =>
    if pyCharLt a b then true
    else if pyCharLt b a then false
    else pyCharsLt as bs

/-- Python's `<` on strings. -/
def pyStrLt (a b : String) : Bool :=
  pyCharsLt a.data b.data

/-- Python's `<=` on strings (`a <= b` iff `not (b < a)`). -/
def pyStrLe (a b : String) : Bool :=
  !(pyStrLt b a)

/-- A stable insertion of `x` into `l`: `x` is placed in front of the
first element `y` with `le x y`.  Used to model Python's stable sort. -/
def pyInsert (le : α → α → Bool) (x : α) : List α → List α
  | [] => [x]
  | y :: ys => if le x y then x :: y :: ys else y :: pyInsert le x ys

/-- A stable sort with respect to the boolean comparator `le`.  Python's
`list.sort` and `sorted` are stable sorts; any two stable sorts agree on
every input, so this insertion sort is a faithful model of them. -/
def pySort (le : α → α → Bool) : List α → List α
  | [] => []
  | x :: xs => pyInsert le x (pySort le xs)

/-- The `severity_order` dictionary of `generate_final_report`
(line 164), read through `.get(x, 99)` (line 211). -/
def severity_order (s : String) : Nat :=
  if s = "Critical" then 0
  else if s = "High" then 1
  else if s = "Medium" then 2
  else if s = "Low" then 3
  else if s = "Info" then 4
  else 99

/-- The duplicate check of `cleanse_k8s_resouces_csv` (lines 134-138):
append `new_row` unless an equal row was already seen.  The Python
`seen_rows` set always contains exactly the tuples of the rows already
appended to `cleansed_data`, so membership in the output accumulator is
the same test. -/
def addRow (acc : List CleanRow) (new_row : CleanRow) : List CleanRow :=
  if new_row ∈ acc then acc else acc ++ [new_row]

/-- One iteration of the row loop of `cleanse_k8s_resouces_csv`
(lines 107-138): skip the row if its `IMAGE` or `IMAGEID` string is
empty or the `<none>` sentinel, skip it if the comma-split image and
image-id lists have different lengths, and otherwise add one cleansed
row per zipped (image, image id) pair. -/
def cleanseRow (acc : List CleanRow) (row : RawRow) : List CleanRow :=
  if row.IMAGE = "" ∨ row.IMAGE = "<none>" ∨ row.IMAGEID = "" ∨ row.IMAGEID = "<none>" then
    acc
  else
    let images := pySplit row.IMAGE ','
    let image_ids := pySplit row.IMAGEID ','
    if images.length ≠ image_ids.length then acc
    else
      (images.zip image_ids).foldl
        (fun acc p => addRow acc ⟨row.NAMESPACE, row.PARENT_KIND, row.PARENT_NAME, p.1, p.2⟩)
        acc

/-- The deduplicator `cleanse_k8s_resouces_csv` (lines 96-153), without
the side write of the cleansed CSV (pure I/O, no effect on the returned
data). -/
def cleanse_k8s_resouces_csv (data : List RawRow) : List CleanRow :=
  data.foldl cleanseRow []

/-- The candidate cleansed rows of one raw row, before deduplication:
the same validity and length checks as `cleanseRow`, but every zipped
pair is kept. -/
def explodeRow (row : RawRow) : List CleanRow :=
  if row.IMAGE = "" ∨ row.IMAGE = "<none>" ∨ row.IMAGEID = "" ∨ row.IMAGEID = "<none>" then
    []
  else
    let images := pySplit row.IMAGE ','
    let image_ids := pySplit row.IMAGEID ','
    if images.length ≠ image_ids.length then []
    else
      (images.zip image_ids).map
        (fun p => ⟨row.NAMESPACE, row.PARENT_KIND, row.PARENT_NAME, p.1, p.2⟩)

/-- The full candidate stream of an input sequence. -/
def explodeRows (data : List RawRow) : List CleanRow :=
  data.flatMap explodeRow

/-- Keep the first occurrence of every element, in first-seen order
(the specification's description of exact-duplicate collapsing). -/
def dedupFirstSeen (l : List CleanRow) : List CleanRow :=
  l.foldl addRow []

/-- Re-read a cleansed row as a raw row (a cleansed row carries exactly
the five fixed columns, so the extra columns are empty). -/
def toRaw (r : CleanRow) : RawRow :=
  ⟨r.NAMESPACE, r.PARENT_KIND, r.PARENT_NAME, r.IMAGE, r.IMAGEID, []⟩

/-- The five-column projection of a raw row: what the deduplicator
actually reads. -/
def toClean (r : RawRow) : CleanRow :=
  ⟨r.NAMESPACE, r.PARENT_KIND, r.PARENT_NAME, r.IMAGE, r.IMAGEID⟩

/-- The grouping key of a matched pair (lines 175-182). -/
def groupKey (k8s_row : CleanRow) (wiz_row : WizRow) : GroupKey :=
  ⟨k8s_row.NAMESPACE, k8s_row.PARENT_KIND, k8s_row.PARENT_NAME, k8s_row.IMAGE,
    wiz_row.AssetName, wiz_row.Severity⟩

/-- The grouping dictionary `grouped_data`: an insertion-ordered
association list from group keys to the list of distinct CVE names in
first-insertion order.  Python's `dict` preserves insertion order of
keys; the value is a `set`, modelled as a duplicate-free list (its
internal order is irrelevant because the names are sorted before being
joined). -/
abbrev Grouped := List (GroupKey × List String)

/-- `grouped_data[key].add(name)` (Python set add). -/
def addCve (cves : List String) (name : String) : List String :=
  if name ∈ cves then cves else cves ++ [name]

/-- Lines 184-188: create the entry on first sight (appended at the end,
as Python dicts do) and add the CVE name to the entry's set. -/
def insertGroup : Grouped → GroupKey → String → Grouped
  | [], key, name => [(key, [name])]
  | (k, cves) :: rest, key, name =>
    if k = key then (k, addCve cves name) :: rest
    else (k, cves) :: insertGroup rest key name

/-- The body of the inner loop of `generate_final_report`
(lines 169-188): insert the pair into the grouping dictionary exactly
when the inventory image id ends with the scan row's image id. -/
def matchStep (g : Grouped) (k8s_row : CleanRow) (wiz_row : WizRow) : Grouped :=
  if pyEndsWith k8s_row.IMAGEID wiz_row.ImageId then
    insertGroup g (groupKey k8s_row wiz_row) wiz_row.Name
  else g

/-- The nested matching loops of `generate_final_report`
(lines 166-188). -/
def grouped_data (k8s_data : List CleanRow) (wiz_data : List WizRow) : Grouped :=
  k8s_data.foldl
    (fun g k8s_row => wiz_data.foldl (fun g wiz_row => matchStep g k8s_row wiz_row) g) []

/-- The matched pairs, in the order the nested loops visit them: every
(inventory row, scan row) pair whose digests pass the suffix test. -/
def matched_pairs (k8s_data : List CleanRow) (wiz_data : List WizRow) :
    List (CleanRow × WizRow) :=
  k8s_data.flatMap (fun k8s_row =>
    (wiz_data.filter (fun wiz_row => pyEndsWith k8s_row.IMAGEID wiz_row.ImageId)).map
      (fun wiz_row => (k8s_row, wiz_row)))

/-- `", ".join(sorted(list(cves)))` (line 199). -/
def joinCves (cves : List String) : String :=
  String.intercalate ", " (pySort pyStrLe cves)

/-- One final row (lines 194-204). -/
def mkReportRow (cluster_name scan_date : String) (key : GroupKey) (cves : List String) :
    ReportRow :=
  ⟨cluster_name, key.IMAGE, key.AssetName, key.Severity, joinCves cves, scan_date,
    key.NAMESPACE, key.PARENT_KIND, key.PARENT_NAME⟩

/-- The sort comparator of lines 208-212: Python sorts `final_rows` by
the key tuple `(Namespace, AssetName, severity_order.get(Severity, 99))`
compared lexicographically. -/
def report_sort_le (x y : ReportRow) : Bool :=
  if x.Namespace = y.Namespace then
    if x.AssetName = y.AssetName then
      decide (severity_order x.Severity ≤ severity_order y.Severity)
    else pyStrLt x.AssetName y.AssetName
  else pyStrLt x.Namespace y.Namespace

/-- The sorted final rows of `generate_final_report` (lines 192-212). -/
def final_rows (k8s_data : List CleanRow) (wiz_data : List WizRow)
    (cluster_name scan_date : String) : List ReportRow :=
  pySort report_sort_le
    ((grouped_data k8s_data wiz_data).map (fun p => mkReportRow cluster_name scan_date p.1 p.2))

/-- The two output artifacts of one run (lines 220-243): the columnar
CSV and the markdown table, each with its path and its row content in
emitted order. -/
structure WrittenArtifacts where
  csv_path : String
  csv_rows : List ReportRow
  md_path : String
  md_rows : List ReportRow
deriving DecidableEq

/-- `generate_final_report` (lines 155-243).  `none` models the early
return at lines 216-218 (zero rows: a warning is logged, nothing is
written, no exception is raised); `some` models the writes of both
artifacts, which contain exactly the sorted final rows. -/
def generate_final_report (k8s_data : List CleanRow) (wiz_data : List WizRow)
    (output_base_path cluster_name scan_date : String) : Option WrittenArtifacts :=
  let rows := final_rows k8s_data wiz_data cluster_name scan_date
  if rows = [] then none
  else some ⟨output_base_path ++ ".csv", rows, output_base_path ++ ".md", rows⟩

/-- The first group's CVE list for a key, `[]` when the key is absent
(used to state what the grouping dictionary holds at a key). -/
def lookupGroup : Grouped → GroupKey → List String
  | [], _ => []
  | (k, cves) :: rest, key => if k = key then cves else lookupGroup rest key

theorem charEq_of_toNat_eq {a b : Char} (h : a.toNat = b.toNat) : a = b :=
  Char.eq_of_val_eq (UInt32.ext h)

theorem pyCharLt_irrefl (a : Char) : pyCharLt a a = false := by
  simp [pyCharLt]

theorem pyCharLt_asymm {a b : Char} (h : pyCharLt a b = true) : pyCharLt b a = false := by
  simp only [pyCharLt, decide_eq_true_eq, decide_eq_false_iff_not] at *
  omega

theorem pyCharLt_trans {a b c : Char} (h₁ : pyCharLt a b = true) (h₂ : pyCharLt b c = true) :
    pyCharLt a c = true := by
  simp only [pyCharLt, decide_eq_true_eq] at *
  omega

theorem charEq_of_not_lt {a b : Char} (h₁ : pyCharLt a b = false) (h₂ : pyCharLt b a = false) :
    a = b := by
  simp only [pyCharLt, decide_eq_false_iff_not] at *
  exact charEq_of_toNat_eq (by omega)

theorem pyCharsLt_irrefl : ∀ l : List Char, pyCharsLt l l = false
  | [] => rfl
  | c :: cs => by simp [pyCharsLt, pyCharLt_irrefl, pyCharsLt_irrefl cs]

theorem pyCharsLt_asymm : ∀ {a b : List Char},
    pyCharsLt a b = true → pyCharsLt b a = false
  | [], [], h => by simp [pyCharsLt] at h
  | [], _ :: _, _ => by simp [pyCharsLt]
  | _ :: _, [], h => by simp [pyCharsLt] at h
  | a :: as, b :: bs, h => by
    by_cases hab : pyCharLt a b = true
    · simp [pyCharsLt, hab, pyCharLt_asymm hab]
    · by_cases hba : pyCharLt b a = true
      · simp [pyCharsLt, hab, hba] at h
      · have hab' : pyCharLt a b = false := by simpa using hab
        have hba' : pyCharLt b a = false := by simpa using hba
        simp only [pyCharsLt, hab', hba', if_false, Bool.false_eq_true] at h ⊢
        exact pyCharsLt_asymm h

theorem pyCharsLt_trans : ∀ {a b c : List Char},
    pyCharsLt a b = true → pyCharsLt b c = true → pyCharsLt a c = true
  | [], _, _ :: _, _, _ => by simp [pyCharsLt]
  | [], _ :: _, [], _, h₂ => by simp [pyCharsLt] at h₂
  | [], [], [], h₁, _ => by simp [pyCharsLt] at h₁
  | _ :: _, [], _, h₁, _ => by simp [pyCharsLt] at h₁
  | _ :: _, _ :: _, [], _, h₂ => by simp [pyCharsLt] at h₂
  | a :: as, b :: bs, c :: cs, h₁, h₂ => by
    by_cases hab : pyCharLt a b = true
    · by_cases hbc : pyCharLt b c = true
      · simp [pyCharsLt, pyCharLt_trans hab hbc]
      · have hbc' : pyCharLt b c = false := by simpa using hbc
        by_cases hcb : pyCharLt c b = true
        · simp [pyCharsLt, hbc', hcb] at h₂
        · have hcb' : pyCharLt c b = false := by simpa using hcb
          have : b = c := charEq_of_not_lt hbc' hcb'
          subst this
          simp [pyCharsLt, hab]
    · have hab' : pyCharLt a b = false := by simpa using hab
      by_cases hba : pyCharLt b a = true
      · simp [pyCharsLt, hab', hba] at h₁
      · have hba' : pyCharLt b a = false := by simpa using hba
        have : a = b := charEq_of_not_lt hab' hba'
        subst this
        simp only [pyCharsLt, hab', if_false, Bool.false_eq_true] at h₁ h₂ ⊢
        by_cases hac : pyCharLt a c = true
        · simp [hac]
        · have hac' : pyCharLt a c = false := by simpa using hac
          by_cases hca : pyCharLt c a = true
          · simp [hac', hca] at h₂
          · have hca' : pyCharLt c a = false := by simpa using hca
            simp only [hac', hca', if_false, Bool.false_eq_true] at h₂ ⊢
            exact pyCharsLt_trans h₁ h₂

theorem charsEq_of_not_lt : ∀ {a b : List Char},
    pyCharsLt a b = false → pyCharsLt b a = false → a = b
  | [], [], _, _ => rfl
  | [], _ :: _, h₁, _ => by simp [pyCharsLt] at h₁
  | _ :: _, [], _, h₂ => by simp [pyCharsLt] at h₂
  | a :: as, b :: bs, h₁, h₂ => by
    by_cases hab : pyCharLt a b = true
    · simp [pyCharsLt, hab] at h₁
    · by_cases hba : pyCharLt b a = true
      · simp [pyCharsLt, hba] at h₂
      · have hab' : pyCharLt a b = false := by simpa using hab
        have hba' : pyCharLt b a = false := by simpa using hba
        have he : a = b := charEq_of_not_lt hab' hba'
        subst he
        simp only [pyCharsLt, hab', if_false, Bool.false_eq_true] at h₁ h₂
        rw [charsEq_of_not_lt h₁ h₂]

theorem pyStrLe_refl (a : String) : pyStrLe a a = true := by
  simp [pyStrLe, pyStrLt, pyCharsLt_irrefl]

theorem pyStrLe_total (a b : String) : pyStrLe a b = true ∨ pyStrLe b a = true := by
  by_cases h : pyCharsLt b.data a.data = true
  · right
    simp [pyStrLe, pyStrLt, pyCharsLt_asymm h]
  · left
    simp only [pyStrLe, pyStrLt, Bool.not_eq_true'] at *
    simpa using h

theorem pyStrLe_trans {a b c : String} (h₁ : pyStrLe a b = true) (h₂ : pyStrLe b c = true) :
    pyStrLe a c = true := by
  simp only [pyStrLe, pyStrLt, Bool.not_eq_true'] at *
  by_cases hca : pyCharsLt c.data a.data = true
  · by_cases hbc : pyCharsLt b.data c.data = true
    · have := pyCharsLt_trans hbc hca
      rw [this] at h₁
      exact absurd h₁ (by simp)
    · have hbc' : pyCharsLt b.data c.data = false := by simpa using hbc
      have hcb : c.data = b.data := charsEq_of_not_lt h₂ hbc'
      rw [hcb] at hca
      rw [hca] at h₁
      exact absurd h₁ (by simp)
  · simpa using hca

theorem pySplitChars_ne_nil (sep : Char) : ∀ l : List Char, pySplitChars sep l ≠ []
  | [] => by simp [pySplitChars]
  | c :: cs => by
    rw [pySplitChars]
    split
    · simp
    · split <;> simp

theorem not_mem_of_mem_pySplitChars (sep : Char) :
    ∀ {l t : List Char}, t ∈ pySplitChars sep l → sep ∉ t
  | [], t, h => by
    simp only [pySplitChars, List.mem_singleton] at h
    subst h
    simp
  | c :: cs, t, h => by
    rw [pySplitChars] at h
    by_cases hc : c = sep
    · rw [if_pos hc] at h
      rcases List.mem_cons.mp h with rfl | h
      · simp
      · exact not_mem_of_mem_pySplitChars sep h
    · rw [if_neg hc] at h
      cases hps : pySplitChars sep cs with
      | nil => exact absurd hps (pySplitChars_ne_nil sep cs)
      | cons t' ts =>
        rw [hps] at h
        have ht' : t' ∈ pySplitChars sep cs := by
          rw [hps]
          exact List.mem_cons_self t' ts
        rcases List.mem_cons.mp h with rfl | h
        · intro hmem
          rcases List.mem_cons.mp hmem with h' | h'
          · exact hc h'.symm
          · exact not_mem_of_mem_pySplitChars sep ht' h'
        · have : t ∈ pySplitChars sep cs := by
            rw [hps]
            exact List.mem_cons_of_mem t' h
          exact not_mem_of_mem_pySplitChars sep this

theorem pySplitChars_of_not_mem (sep : Char) :
    ∀ {l : List Char}, sep ∉ l → pySplitChars sep l = [l]
  | [], _ => rfl
  | c :: cs, h => by
    rw [pySplitChars]
    have hc : ¬ c = sep := fun e => h (e ▸ List.mem_cons_self c cs)
    rw [if_neg hc, pySplitChars_of_not_mem sep (fun hm => h (List.mem_cons_of_mem c hm))]

theorem mem_pySplit_no_comma {s t : String} (h : t ∈ pySplit s ',') : ',' ∉ t.data := by
  simp only [pySplit, List.mem_map] at h
  obtain ⟨l, hl, rfl⟩ := h
  exact not_mem_of_mem_pySplitChars ',' hl

theorem pySplit_of_no_comma {s : String} (h : ',' ∉ s.data) : pySplit s ',' = [s] := by
  rw [pySplit, pySplitChars_of_not_mem ',' h]
  rfl

theorem pyEndsWith_empty (s : String) : pyEndsWith s "" = true := by
  have h : ("" : String).data = [] := rfl
  rw [pyEndsWith, h]
  simp [List.isSuffixOf, List.isPrefixOf]

theorem pyInsert_perm (le : α → α → Bool) (x : α) :
    ∀ l : List α, List.Perm (pyInsert le x l) (x :: l)
  | [] => List.Perm.refl _
  | y :: ys => by
    rw [pyInsert]
    split
    · exact List.Perm.refl _
    · exact ((pyInsert_perm le x ys).cons y).trans (List.Perm.swap x y ys)

theorem pySort_perm (le : α → α → Bool) : ∀ l : List α, List.Perm (pySort le l) l
  | [] => List.Perm.refl _
  | x :: xs => (pyInsert_perm le x (pySort le xs)).trans ((pySort_perm le xs).cons x)

theorem pairwise_pyInsert (le : α → α → Bool)
    (total : ∀ a b, le a b = true ∨ le b a = true)
    (letrans : ∀ a b c, le a b = true → le b c = true → le a c = true) (x : α) :
    ∀ {l : List α}, l.Pairwise (fun a b => le a b = true) →
      (pyInsert le x l).Pairwise (fun a b => le a b = true)
  | [], _ => by simp [pyInsert]
  | y :: ys, h => by
    rcases List.pairwise_cons.mp h with ⟨hy, hys⟩
    by_cases hxy : le x y = true
    · rw [pyInsert, if_pos hxy]
      refine List.Pairwise.cons ?_ h
      intro z hz
      rcases List.mem_cons.mp hz with rfl | hz
      · exact hxy
      · exact letrans x y z hxy (hy z hz)
    · rw [pyInsert, if_neg hxy]
      have hyx : le y x = true := (total x y).resolve_left hxy
      refine List.Pairwise.cons ?_ (pairwise_pyInsert le total letrans x hys)
      intro z hz
      rcases List.mem_cons.mp ((pyInsert_perm le x ys).mem_iff.mp hz) with rfl | hz'
      · exact hyx
      · exact hy z hz'

theorem pairwise_pySort (le : α → α → Bool)
    (total : ∀ a b, le a b = true ∨ le b a = true)
    (letrans : ∀ a b c, le a b = true → le b c = true → le a c = true) :
    ∀ l : List α, (pySort le l).Pairwise (fun a b => le a b = true)
  | [] => List.Pairwise.nil
  | x :: xs => pairwise_pyInsert le total letrans x (pairwise_pySort le total letrans xs)

theorem filter_pyInsert_pos (le : α → α → Bool) (p : α → Bool) (x : α) (hx : p x = true) :
    ∀ {l : List α}, (∀ y ∈ l, p y = true → le x y = true) →
      (pyInsert le x l).filter p = x :: l.filter p
  | [], _ => by simp [pyInsert, hx]
  | y :: ys, h => by
    by_cases hxy : le x y = true
    · rw [pyInsert, if_pos hxy, List.filter_cons, if_pos hx]
    · rw [pyInsert, if_neg hxy]
      have hpy : p y = false := by
        by_contra hpy'
        have hpy2 : p y = true := by simpa using hpy'
        exact hxy (h y (List.mem_cons_self y ys) hpy2)
      rw [List.filter_cons, List.filter_cons, if_neg (by simp [hpy]), if_neg (by simp [hpy])]
      exact filter_pyInsert_pos le p x hx (fun z hz hpz => h z (List.mem_cons_of_mem y hz) hpz)

theorem filter_pyInsert_neg (le : α → α → Bool) (p : α → Bool) (x : α) (hx : p x = false) :
    ∀ l : List α, (pyInsert le x l).filter p = l.filter p
  | [] => by simp [pyInsert, hx]
  | y :: ys => by
    by_cases hxy : le x y = true
    · rw [pyInsert, if_pos hxy, List.filter_cons, if_neg (by simp [hx])]
    · rw [pyInsert, if_neg hxy, List.filter_cons, List.filter_cons,
        filter_pyInsert_neg le p x hx ys]

theorem filter_pySort (le : α → α → Bool) (p : α → Bool)
    (tied : ∀ a b, p a = true → p b = true → le a b = true) :
    ∀ l : List α, (pySort le l).filter p = l.filter p
  | [] => rfl
  | x :: xs => by
    by_cases hx : p x = true
    · have hstep : ∀ y ∈ pySort le xs, p y = true → le x y = true :=
        fun y _ hpy => tied x y hx hpy
      rw [pySort, filter_pyInsert_pos le p x hx hstep, List.filter_cons, if_pos hx,
        filter_pySort le p tied xs]
    · have hx' : p x = false := by simpa using hx
      rw [pySort, filter_pyInsert_neg le p x hx', List.filter_cons, if_neg (by simp [hx']),
        filter_pySort le p tied xs]

theorem mem_foldl_addRow : ∀ (l : List CleanRow) (acc : List CleanRow) (r : CleanRow),
    r ∈ l.foldl addRow acc ↔ r ∈ acc ∨ r ∈ l
  | [], acc, r => by simp
  | x :: xs, acc, r => by
    rw [List.foldl_cons, mem_foldl_addRow xs (addRow acc x) r, addRow]
    by_cases hx : x ∈ acc
    · rw [if_pos hx]
      simp only [List.mem_cons]
      constructor
      · rintro (h | h)
        · exact Or.inl h
        · exact Or.inr (Or.inr h)
      · rintro (h | rfl | h)
        · exact Or.inl h
        · exact Or.inl hx
        · exact Or.inr h
    · rw [if_neg hx]
      simp only [List.mem_append, List.mem_singleton, List.mem_cons]
      tauto

theorem nodup_foldl_addRow : ∀ (l : List CleanRow) {acc : List CleanRow},
    acc.Nodup → (l.foldl addRow acc).Nodup
  | [], _, h => h
  | x :: xs, acc, h => by
    rw [List.foldl_cons]
    apply nodup_foldl_addRow xs
    rw [addRow]
    by_cases hx : x ∈ acc
    · rwa [if_pos hx]
    · rw [if_neg hx]
      simp [List.nodup_append, h, hx]

theorem foldl_addRow_eq_append : ∀ (l : List CleanRow) (acc : List CleanRow),
    l.Nodup → (∀ r ∈ l, r ∉ acc) → l.foldl addRow acc = acc ++ l
  | [], acc, _, _ => by simp
  | x :: xs, acc, hnd, hdisj => by
    rw [List.foldl_cons, addRow, if_neg (hdisj x (List.mem_cons_self x xs))]
    have hdisj' : ∀ r ∈ xs, r ∉ acc ++ [x] := by
      intro r hr
      simp only [List.mem_append, List.mem_singleton]
      rintro (h | rfl)
      · exact hdisj r (List.mem_cons_of_mem x hr) h
      · exact (List.nodup_cons.mp hnd).1 hr
    rw [foldl_addRow_eq_append xs (acc ++ [x]) (List.Nodup.of_cons hnd) hdisj']
    simp

theorem cleanseRow_eq_foldl (acc : List CleanRow) (row : RawRow) :
    cleanseRow acc row = (explodeRow row).foldl addRow acc := by
  simp only [cleanseRow, explodeRow]
  by_cases h1 : row.IMAGE = "" ∨ row.IMAGE = "<none>" ∨ row.IMAGEID = "" ∨ row.IMAGEID = "<none>"
  · rw [if_pos h1, if_pos h1]
    rfl
  · rw [if_neg h1, if_neg h1]
    by_cases h2 : (pySplit row.IMAGE ',').length ≠ (pySplit row.IMAGEID ',').length
    · rw [if_pos h2, if_pos h2]
      rfl
    · rw [if_neg h2, if_neg h2, List.foldl_map]

theorem foldl_cleanseRow_eq : ∀ (data : List RawRow) (acc : List CleanRow),
    data.foldl cleanseRow acc = (explodeRows data).foldl addRow acc
  | [], acc => by simp [explodeRows]
  | row :: rest, acc => by
    rw [List.foldl_cons, cleanseRow_eq_foldl, explodeRows, List.flatMap_cons,
      List.foldl_append, foldl_cleanseRow_eq rest]
    rfl

theorem cleanse_eq_dedupFirstSeen (data : List RawRow) :
    cleanse_k8s_resouces_csv data = dedupFirstSeen (explodeRows data) := by
  rw [cleanse_k8s_resouces_csv, dedupFirstSeen, foldl_cleanseRow_eq]

theorem mem_explodeRow {row : RawRow} {r : CleanRow} (h : r ∈ explodeRow row) :
    r.IMAGE ∈ pySplit row.IMAGE ',' ∧ r.IMAGEID ∈ pySplit row.IMAGEID ',' ∧
      r.NAMESPACE = row.NAMESPACE ∧ r.PARENT_KIND = row.PARENT_KIND ∧
      r.PARENT_NAME = row.PARENT_NAME := by
  simp only [explodeRow] at h
  split at h
  · simp at h
  · split at h
    · simp at h
    · rcases List.mem_map.mp h with ⟨p, hp, rfl⟩
      have hmem := List.of_mem_zip hp
      exact ⟨hmem.1, hmem.2, rfl, rfl, rfl⟩

theorem mem_cleanse {data : List RawRow} {r : CleanRow}
    (h : r ∈ cleanse_k8s_resouces_csv data) :
    ∃ row ∈ data, r ∈ explodeRow row := by
  rw [cleanse_eq_dedupFirstSeen, dedupFirstSeen] at h
  rcases (mem_foldl_addRow _ _ _).mp h with h' | h'
  · simp at h'
  · rcases List.mem_flatMap.mp h' with ⟨row, hrow, hr⟩
    exact ⟨row, hrow, hr⟩

theorem nodup_cleanse (data : List RawRow) : (cleanse_k8s_resouces_csv data).Nodup := by
  rw [cleanse_eq_dedupFirstSeen, dedupFirstSeen]
  exact nodup_foldl_addRow _ List.nodup_nil

theorem explodeRow_toRaw {r : CleanRow}
    (h1 : r.IMAGE ≠ "") (h2 : r.IMAGE ≠ "<none>")
    (h3 : r.IMAGEID ≠ "") (h4 : r.IMAGEID ≠ "<none>")
    (h5 : ',' ∉ r.IMAGE.data) (h6 : ',' ∉ r.IMAGEID.data) :
    explodeRow (toRaw r) = [r] := by
  simp only [explodeRow, toRaw]
  rw [if_neg (by simp [h1, h2, h3, h4]), pySplit_of_no_comma h5, pySplit_of_no_comma h6]
  simp [List.zip]

theorem explodeRows_map_toRaw : ∀ {l : List CleanRow},
    (∀ r ∈ l, r.IMAGE ≠ "" ∧ r.IMAGE ≠ "<none>" ∧ r.IMAGEID ≠ "" ∧ r.IMAGEID ≠ "<none>" ∧
      ',' ∉ r.IMAGE.data ∧ ',' ∉ r.IMAGEID.data) →
    explodeRows (l.map toRaw) = l
  | [], _ => rfl
  | r :: rs, h => by
    have hr := h r (List.mem_cons_self r rs)
    rw [List.map_cons, explodeRows, List.flatMap_cons,
      explodeRow_toRaw hr.1 hr.2.1 hr.2.2.1 hr.2.2.2.1 hr.2.2.2.2.1 hr.2.2.2.2.2]
    have := explodeRows_map_toRaw (fun x hx => h x (List.mem_cons_of_mem r hx))
    rw [explodeRows] at this
    rw [this]
    rfl

theorem dedupFirstSeen_of_nodup {l : List CleanRow} (h : l.Nodup) : dedupFirstSeen l = l := by
  rw [dedupFirstSeen, foldl_addRow_eq_append l [] h (by simp)]
  simp

theorem cleanse_valid {data : List RawRow}
    (hI : ∀ row ∈ data, ∀ s ∈ pySplit row.IMAGE ',', s ≠ "" ∧ s ≠ "<none>")
    (hD : ∀ row ∈ data, ∀ s ∈ pySplit row.IMAGEID ',', s ≠ "" ∧ s ≠ "<none>") :
    ∀ r ∈ cleanse_k8s_resouces_csv data,
      r.IMAGE ≠ "" ∧ r.IMAGE ≠ "<none>" ∧ r.IMAGEID ≠ "" ∧ r.IMAGEID ≠ "<none>" := by
  intro r hr
  rcases mem_cleanse hr with ⟨row, hrow, hre⟩
  rcases mem_explodeRow hre with ⟨hri, hrd, -, -, -⟩
  rcases hI row hrow r.IMAGE hri with ⟨a, b⟩
  rcases hD row hrow r.IMAGEID hrd with ⟨c, d⟩
  exact ⟨a, b, c, d⟩

theorem cleanse_comma_free {data : List RawRow} :
    ∀ r ∈ cleanse_k8s_resouces_csv data, ',' ∉ r.IMAGE.data ∧ ',' ∉ r.IMAGEID.data := by
  intro r hr
  rcases mem_cleanse hr with ⟨row, hrow, hre⟩
  rcases mem_explodeRow hre with ⟨hri, hrd, -, -, -⟩
  exact ⟨mem_pySplit_no_comma hri, mem_pySplit_no_comma hrd⟩

theorem mem_addCve {cves : List String} {n m : String} :
    n ∈ addCve cves m ↔ n ∈ cves ∨ n = m := by
  rw [addCve]
  by_cases h : m ∈ cves
  · rw [if_pos h]
    constructor
    · exact Or.inl
    · rintro (h' | rfl)
      · exact h'
      · exact h
  · rw [if_neg h]
    simp

theorem addCve_ne_nil (cves : List String) (n : String) : addCve cves n ≠ [] := by
  rw [addCve]
  by_cases h : n ∈ cves
  · rw [if_pos h]
    exact List.ne_nil_of_mem h
  · rw [if_neg h]
    simp

theorem addCve_nodup {cves : List String} (h : cves.Nodup) (n : String) :
    (addCve cves n).Nodup := by
  rw [addCve]
  by_cases hn : n ∈ cves
  · rwa [if_pos hn]
  · rw [if_neg hn]
    simp [List.nodup_append, h, hn]

theorem mem_lookupGroup_insertGroup :
    ∀ (g : Grouped) (key key' : GroupKey) (n n' : String),
      n ∈ lookupGroup (insertGroup g key' n') key ↔
        n ∈ lookupGroup g key ∨ (key = key' ∧ n = n')
  | [], key, key', n, n' => by
    simp only [insertGroup, lookupGroup]
    by_cases h : key' = key
    · subst h
      simp
    · rw [if_neg h]
      have h' : ¬ (key = key') := fun e => h e.symm
      simp [lookupGroup, h']
  | (k, cves) :: rest, key, key', n, n' => by
    rw [insertGroup]
    by_cases hk : k = key'
    · rw [if_pos hk]
      subst hk
      rw [lookupGroup, lookupGroup]
      by_cases hkey : k = key
      · rw [if_pos hkey, if_pos hkey, mem_addCve]
        subst hkey
        simp
      · rw [if_neg hkey, if_neg hkey]
        have h' : ¬ (key = k) := fun e => hkey e.symm
        simp [h']
    · rw [if_neg hk]
      rw [lookupGroup, lookupGroup]
      by_cases hkey : k = key
      · rw [if_pos hkey, if_pos hkey]
        have h' : ¬ (key = key') := by
          rw [← hkey]
          exact fun e => hk e
        simp [h']
      · rw [if_neg hkey, if_neg hkey]
        exact mem_lookupGroup_insertGroup rest key key' n n'

theorem keys_insertGroup : ∀ (g : Grouped) (key : GroupKey) (n : String),
    (insertGroup g key n).map Prod.fst =
      if key ∈ g.map Prod.fst then g.map Prod.fst else g.map Prod.fst ++ [key]
  | [], key, n => by simp [insertGroup]
  | (k, cves) :: rest, key, n => by
    rw [insertGroup]
    by_cases hk : k = key
    · rw [if_pos hk]
      subst hk
      simp
    · rw [if_neg hk]
      simp only [List.map_cons]
      rw [keys_insertGroup rest key n]
      by_cases hmem : key ∈ rest.map Prod.fst
      · rw [if_pos hmem, if_pos (List.mem_cons_of_mem _ hmem)]
      · rw [if_neg hmem, if_neg ?hni]
        · rfl
        case hni =>
          intro hmem'
          rcases List.mem_cons.mp hmem' with e | e
          · exact hk e.symm
          · exact hmem e

theorem nodupKeys_insertGroup {g : Grouped} (h : (g.map Prod.fst).Nodup)
    (key : GroupKey) (n : String) : ((insertGroup g key n).map Prod.fst).Nodup := by
  rw [keys_insertGroup]
  by_cases hmem : key ∈ g.map Prod.fst
  · rwa [if_pos hmem]
  · rw [if_neg hmem]
    simp [List.nodup_append, h, hmem]

theorem vals_insertGroup : ∀ {g : Grouped},
    (∀ p ∈ g, p.2 ≠ [] ∧ p.2.Nodup) → ∀ (key : GroupKey) (n : String),
      ∀ p ∈ insertGroup g key n, p.2 ≠ [] ∧ p.2.Nodup
  | [], _, key, n, p, hp => by
    simp only [insertGroup, List.mem_singleton] at hp
    subst hp
    simp
  | (k, cves) :: rest, h, key, n, p, hp => by
    have hrest : ∀ p ∈ rest, p.2 ≠ [] ∧ p.2.Nodup :=
      fun q hq => h q (List.mem_cons_of_mem _ hq)
    have hhead := h (k, cves) (List.mem_cons_self _ _)
    rw [insertGroup] at hp
    by_cases hk : k = key
    · rw [if_pos hk] at hp
      rcases List.mem_cons.mp hp with rfl | hp'
      · exact ⟨addCve_ne_nil _ _, addCve_nodup hhead.2 n⟩
      · exact hrest p hp'
    · rw [if_neg hk] at hp
      rcases List.mem_cons.mp hp with rfl | hp'
      · exact hhead
      · exact vals_insertGroup hrest key n p hp'

theorem matchStep_lookup {g : Grouped} {k : CleanRow} {w : WizRow} {key : GroupKey}
    {n : String} :
    n ∈ lookupGroup (matchStep g k w) key ↔
      n ∈ lookupGroup g key ∨
        (pyEndsWith k.IMAGEID w.ImageId = true ∧ key = groupKey k w ∧ n = w.Name) := by
  rw [matchStep]
  by_cases h : pyEndsWith k.IMAGEID w.ImageId = true
  · rw [if_pos h, mem_lookupGroup_insertGroup]
    simp [h]
  · rw [if_neg h]
    simp [h]

theorem lookup_innerFold :
    ∀ (wiz : List WizRow) (g : Grouped) (k : CleanRow) (key : GroupKey) (n : String),
      n ∈ lookupGroup (wiz.foldl (fun g w => matchStep g k w) g) key ↔
        n ∈ lookupGroup g key ∨
          ∃ w ∈ wiz, pyEndsWith k.IMAGEID w.ImageId = true ∧ key = groupKey k w ∧ n = w.Name
  | [], g, k, key, n => by simp
  | w :: ws, g, k, key, n => by
    rw [List.foldl_cons, lookup_innerFold ws, matchStep_lookup]
    constructor
    · rintro ((h | ⟨h1, h2, h3⟩) | ⟨w', hw', hp⟩)
      · exact Or.inl h
      · exact Or.inr ⟨w, List.mem_cons_self _ _, h1, h2, h3⟩
      · exact Or.inr ⟨w', List.mem_cons_of_mem _ hw', hp⟩
    · rintro (h | ⟨w', hw', hp⟩)
      · exact Or.inl (Or.inl h)
      · rcases List.mem_cons.mp hw' with rfl | hw''
        · exact Or.inl (Or.inr hp)
        · exact Or.inr ⟨w', hw'', hp⟩

theorem lookup_outerFold :
    ∀ (k8s : List CleanRow) (wiz : List WizRow) (g : Grouped) (key : GroupKey) (n : String),
      n ∈ lookupGroup
          (k8s.foldl (fun g k => wiz.foldl (fun g w => matchStep g k w) g) g) key ↔
        n ∈ lookupGroup g key ∨
          ∃ k ∈ k8s, ∃ w ∈ wiz,
            pyEndsWith k.IMAGEID w.ImageId = true ∧ key = groupKey k w ∧ n = w.Name
  | [], wiz, g, key, n => by simp
  | k :: ks, wiz, g, key, n => by
    rw [List.foldl_cons, lookup_outerFold ks, lookup_innerFold]
    constructor
    · rintro ((h | ⟨w, hw, hp⟩) | ⟨k', hk', hp⟩)
      · exact Or.inl h
      · exact Or.inr ⟨k, List.mem_cons_self _ _, w, hw, hp⟩
      · exact Or.inr ⟨k', List.mem_cons_of_mem _ hk', hp⟩
    · rintro (h | ⟨k', hk', w, hw, hp⟩)
      · exact Or.inl (Or.inl h)
      · rcases List.mem_cons.mp hk' with rfl | hk''
        · exact Or.inl (Or.inr ⟨w, hw, hp⟩)
        · exact Or.inr ⟨k', hk'', w, hw, hp⟩

theorem mem_lookupGroup_grouped_iff {k8s_data : List CleanRow} {wiz_data : List WizRow}
    {key : GroupKey} {n : String} :
    n ∈ lookupGroup (grouped_data k8s_data wiz_data) key ↔
      ∃ k ∈ k8s_data, ∃ w ∈ wiz_data,
        pyEndsWith k.IMAGEID w.ImageId = true ∧ key = groupKey k w ∧ n = w.Name := by
  rw [grouped_data, lookup_outerFold]
  simp [lookupGroup]

theorem foldl_preserve {β : Type _} (f : Grouped → β → Grouped) (P : Grouped → Prop)
    (hf : ∀ g b, P g → P (f g b)) : ∀ (l : List β) (g : Grouped), P g → P (l.foldl f g)
  | [], _, h => h
  | b :: bs, g, h => foldl_preserve f P hf bs (f g b) (hf g b h)

theorem matchStep_keys_nodup {g : Grouped} (h : (g.map Prod.fst).Nodup)
    (k : CleanRow) (w : WizRow) : ((matchStep g k w).map Prod.fst).Nodup := by
  rw [matchStep]
  split
  · exact nodupKeys_insertGroup h _ _
  · exact h

theorem matchStep_vals {g : Grouped} (h : ∀ p ∈ g, p.2 ≠ [] ∧ p.2.Nodup)
    (k : CleanRow) (w : WizRow) : ∀ p ∈ matchStep g k w, p.2 ≠ [] ∧ p.2.Nodup := by
  rw [matchStep]
  split
  · exact vals_insertGroup h _ _
  · exact h

theorem grouped_keys_nodup (k8s_data : List CleanRow) (wiz_data : List WizRow) :
    ((grouped_data k8s_data wiz_data).map Prod.fst).Nodup := by
  rw [grouped_data]
  refine foldl_preserve _ (fun g => (g.map Prod.fst).Nodup) ?_ k8s_data [] (by simp)
  intro g k hg
  refine foldl_preserve _ (fun g => (g.map Prod.fst).Nodup) ?_ wiz_data g hg
  intro g w hg
  exact matchStep_keys_nodup hg k w

theorem grouped_vals (k8s_data : List CleanRow) (wiz_data : List WizRow) :
    ∀ p ∈ grouped_data k8s_data wiz_data, p.2 ≠ [] ∧ p.2.Nodup := by
  rw [grouped_data]
  refine foldl_preserve _ (fun g => ∀ p ∈ g, p.2 ≠ [] ∧ p.2.Nodup) ?_ k8s_data [] (by simp)
  intro g k hg
  refine foldl_preserve _ (fun g => ∀ p ∈ g, p.2 ≠ [] ∧ p.2.Nodup) ?_ wiz_data g hg
  intro g w hg
  exact matchStep_vals hg k w

theorem innerFold_id {wiz_data : List WizRow} {k : CleanRow}
    (h : ∀ w ∈ wiz_data, pyEndsWith k.IMAGEID w.ImageId = false) (g : Grouped) :
    wiz_data.foldl (fun g w => matchStep g k w) g = g := by
  induction wiz_data generalizing g with
  | nil => rfl
  | cons w ws ih =>
    rw [List.foldl_cons, matchStep, if_neg (by simp [h w (List.mem_cons_self w ws)])]
    exact ih (fun w' hw' => h w' (List.mem_cons_of_mem w hw')) g

theorem grouped_data_nil {k8s_data : List CleanRow} {wiz_data : List WizRow}
    (h : ∀ k ∈ k8s_data, ∀ w ∈ wiz_data, pyEndsWith k.IMAGEID w.ImageId = false) :
    grouped_data k8s_data wiz_data = [] := by
  rw [grouped_data]
  induction k8s_data with
  | nil => rfl
  | cons k ks ih =>
    rw [List.foldl_cons, innerFold_id (h k (List.mem_cons_self k ks))]
    exact ih (fun k' hk' => h k' (List.mem_cons_of_mem k hk'))

theorem mem_matched_pairs {k8s_data : List CleanRow} {wiz_data : List WizRow}
    {k : CleanRow} {w : WizRow} :
    (k, w) ∈ matched_pairs k8s_data wiz_data ↔
      k ∈ k8s_data ∧ w ∈ wiz_data ∧ pyEndsWith k.IMAGEID w.ImageId = true := by
  simp only [matched_pairs, List.mem_flatMap, List.mem_map, List.mem_filter]
  constructor
  · rintro ⟨k', hk', w', ⟨hw', hcond⟩, heq⟩
    injection heq with h1 h2
    subst h1
    subst h2
    exact ⟨hk', hw', hcond⟩
  · rintro ⟨hk, hw, hcond⟩
    exact ⟨k, hk, w, ⟨hw, hcond⟩, rfl⟩

theorem strEq_of_data_eq {a b : String} (h : a.data = b.data) : a = b := by
  have h1 : String.mk a.data = String.mk b.data := by rw [h]
  exact h1

theorem pyStrLt_trans {a b c : String} (h₁ : pyStrLt a b = true)
    (h₂ : pyStrLt b c = true) : pyStrLt a c = true :=
  pyCharsLt_trans h₁ h₂

theorem pyStrLt_asymm {a b : String} (h : pyStrLt a b = true) : pyStrLt b a = false :=
  pyCharsLt_asymm h

theorem pyStrLt_connex {a b : String} (h₁ : pyStrLt a b = false)
    (h₂ : pyStrLt b a = false) : a = b :=
  strEq_of_data_eq (charsEq_of_not_lt h₁ h₂)

theorem ne_of_pyStrLt {a b : String} (h : pyStrLt a b = true) : a ≠ b := by
  rintro rfl
  rw [pyStrLt, pyCharsLt_irrefl] at h
  simp at h

theorem pyStrLt_or {a b : String} (h : a ≠ b) :
    pyStrLt a b = true ∨ pyStrLt b a = true := by
  by_cases h₁ : pyStrLt a b = true
  · exact Or.inl h₁
  · by_cases h₂ : pyStrLt b a = true
    · exact Or.inr h₂
    · exact absurd (pyStrLt_connex (by simpa using h₁) (by simpa using h₂)) h

theorem report_sort_le_of_eq_keys {x y : ReportRow}
    (h1 : x.Namespace = y.Namespace) (h2 : x.AssetName = y.AssetName)
    (h3 : severity_order x.Severity = severity_order y.Severity) :
    report_sort_le x y = true := by
  rw [report_sort_le, if_pos h1, if_pos h2]
  simp [h3]

theorem report_sort_le_total (x y : ReportRow) :
    report_sort_le x y = true ∨ report_sort_le y x = true := by
  rw [report_sort_le, report_sort_le]
  by_cases h1 : x.Namespace = y.Namespace
  · rw [if_pos h1, if_pos h1.symm]
    by_cases h2 : x.AssetName = y.AssetName
    · rw [if_pos h2, if_pos h2.symm]
      rcases Nat.le_total (severity_order x.Severity) (severity_order y.Severity) with h | h
      · exact Or.inl (by simpa using h)
      · exact Or.inr (by simpa using h)
    · rw [if_neg h2, if_neg (fun e => h2 e.symm)]
      exact pyStrLt_or h2
  · rw [if_neg h1, if_neg (fun e => h1 e.symm)]
    exact pyStrLt_or h1

theorem report_sort_le_trans {x y z : ReportRow} (h₁ : report_sort_le x y = true)
    (h₂ : report_sort_le y z = true) : report_sort_le x z = true := by
  rw [report_sort_le] at h₁ h₂ ⊢
  by_cases e1 : x.Namespace = y.Namespace
  · rw [if_pos e1] at h₁
    by_cases e2 : y.Namespace = z.Namespace
    · rw [if_pos e2] at h₂
      rw [if_pos (e1.trans e2)]
      by_cases a1 : x.AssetName = y.AssetName
      · rw [if_pos a1] at h₁
        by_cases a2 : y.AssetName = z.AssetName
        · rw [if_pos a2] at h₂
          rw [if_pos (a1.trans a2)]
          simp only [decide_eq_true_eq] at h₁ h₂ ⊢
          exact Nat.le_trans h₁ h₂
        · rw [if_neg a2] at h₂
          have a3 : ¬ x.AssetName = z.AssetName := by
            rw [a1]
            exact a2
          rw [if_neg a3, a1]
          exact h₂
      · rw [if_neg a1] at h₁
        by_cases a2 : y.AssetName = z.AssetName
        · rw [if_neg (fun e => a1 (e.trans a2.symm))]
          rw [← a2]
          exact h₁
        · rw [if_neg a2] at h₂
          have a3 : ¬ x.AssetName = z.AssetName := by
            intro e
            rw [← e] at h₂
            rw [pyStrLt_asymm h₂] at h₁
            simp at h₁
          rw [if_neg a3]
          exact pyStrLt_trans h₁ h₂
    · rw [if_neg e2] at h₂
      have e3 : ¬ x.Namespace = z.Namespace := by
        rw [e1]
        exact e2
      rw [if_neg e3, e1]
      exact h₂
  · rw [if_neg e1] at h₁
    by_cases e2 : y.Namespace = z.Namespace
    · rw [if_neg (fun e => e1 (e.trans e2.symm))]
      rw [← e2]
      exact h₁
    · rw [if_neg e2] at h₂
      have e3 : ¬ x.Namespace = z.Namespace := by
        intro e
        rw [← e] at h₂
        rw [pyStrLt_asymm h₂] at h₁
        simp at h₁
      rw [if_neg e3]
      exact pyStrLt_trans h₁ h₂

/-- C1: a pair of an inventory row and a scan row is selected by the
matcher if and only if the inventory row's `IMAGEID` string ends with
the scan row's `ImageId` string (suffix test); in particular inventory
digest `sha256:1234567890` against the single scan row
`{ImageId: 1234567890, AssetName: asset1, Severity: Critical, Name: CVE-1}`
yields exactly one grouped output row with `AssetName = asset1`,
`Severity = Critical`, `CVEs = "CVE-1"`. -/
theorem C1_matcher_suffix_iff :
    (∀ (k8s_data : List CleanRow) (wiz_data : List WizRow) (k : CleanRow) (w : WizRow),
      (k, w) ∈ matched_pairs k8s_data wiz_data ↔
        k ∈ k8s_data ∧ w ∈ wiz_data ∧ pyEndsWith k.IMAGEID w.ImageId = true) ∧
    (∀ cluster_name scan_date : String,
      final_rows [⟨"ns1", "Deployment", "dep1", "img1", "sha256:1234567890"⟩]
          [⟨"1234567890", "asset1", "Critical", "CVE-1"⟩] cluster_name scan_date =
        [⟨cluster_name, "img1", "asset1", "Critical", "CVE-1", scan_date,
          "ns1", "Deployment", "dep1"⟩]) := by
  constructor
  · intro k8s_data wiz_data k w
    exact mem_matched_pairs
  · intro cluster_name scan_date
    rfl

/-- C2 counterexample: the validity filter of the deduplicator inspects
the raw row's comma-joined strings before splitting, so the raw row
`{IMAGE: "img1,<none>", IMAGEID: "id1,id2"}` passes the filter and an
invalid record with `IMAGE = "<none>"` appears in the output, refuting
the claim that the output contains no invalid record. -/
theorem C2_counterexample :
    ¬ (∀ r ∈ cleanse_k8s_resouces_csv
          [⟨"ns1", "Deployment", "dep1", "img1,<none>", "id1,id2", []⟩],
        r.IMAGE ≠ "" ∧ r.IMAGE ≠ "<none>" ∧ r.IMAGEID ≠ "" ∧ r.IMAGEID ≠ "<none>") := by
  decide

/-- C2 (amended): the deduplicator's output is exactly the first-seen
deduplication of the exploded candidate stream (one occurrence per
distinct attribute tuple, in order of first occurrence); provided every
comma-separated component of every row's image and image-id lists is
non-empty and not the `<none>` sentinel, the output contains no invalid
record; and on the four-row example with one exact duplicate and one
empty-image row the output has length two, first `ns1`, then `ns3`. -/
theorem C2_dedup_correctness :
    (∀ data : List RawRow,
      cleanse_k8s_resouces_csv data = dedupFirstSeen (explodeRows data)) ∧
    (∀ data : List RawRow,
      (∀ row ∈ data, ∀ s ∈ pySplit row.IMAGE ',', s ≠ "" ∧ s ≠ "<none>") →
      (∀ row ∈ data, ∀ s ∈ pySplit row.IMAGEID ',', s ≠ "" ∧ s ≠ "<none>") →
      ∀ r ∈ cleanse_k8s_resouces_csv data,
        r.IMAGE ≠ "" ∧ r.IMAGE ≠ "<none>" ∧ r.IMAGEID ≠ "" ∧ r.IMAGEID ≠ "<none>") ∧
    cleanse_k8s_resouces_csv
        [⟨"ns1", "Deployment", "dep1", "img1", "id1", []⟩,
         ⟨"ns1", "Deployment", "dep1", "img1", "id1", []⟩,
         ⟨"ns2", "Pod", "pod1", "", "id2", []⟩,
         ⟨"ns3", "DaemonSet", "ds1", "img3", "id3", []⟩] =
      [⟨"ns1", "Deployment", "dep1", "img1", "id1"⟩,
       ⟨"ns3", "DaemonSet", "ds1", "img3", "id3"⟩] := by
  refine ⟨cleanse_eq_dedupFirstSeen, ?_, by decide⟩
  intro data hI hD
  exact cleanse_valid hI hD

/-- C2 witness: the amended validity part evaluated on a concrete
single-row input. -/
theorem C2_dedup_correctness_witness :
    (⟨"ns1", "Deployment", "dep1", "img1", "id1"⟩ : CleanRow).IMAGE ≠ "" ∧
      (⟨"ns1", "Deployment", "dep1", "img1", "id1"⟩ : CleanRow).IMAGE ≠ "<none>" ∧
      (⟨"ns1", "Deployment", "dep1", "img1", "id1"⟩ : CleanRow).IMAGEID ≠ "" ∧
      (⟨"ns1", "Deployment", "dep1", "img1", "id1"⟩ : CleanRow).IMAGEID ≠ "<none>" :=
  C2_dedup_correctness.2.1 [⟨"ns1", "Deployment", "dep1", "img1", "id1", []⟩]
    (by decide) (by decide) ⟨"ns1", "Deployment", "dep1", "img1", "id1"⟩ (by decide)

/-- C3 counterexample: a scan row whose `Name` is the empty string
produces an emitted row whose `CVEs` field is the empty string, refuting
the claim that the `CVEs` field is never empty for an emitted row. -/
theorem C3_counterexample :
    final_rows [⟨"ns1", "Deployment", "dep1", "img1", "id1"⟩]
        [⟨"id1", "asset1", "Critical", ""⟩] "c" "d" =
      [⟨"c", "img1", "asset1", "Critical", "", "d", "ns1", "Deployment", "dep1"⟩] ∧
    (⟨"c", "img1", "asset1", "Critical", "", "d", "ns1", "Deployment", "dep1"⟩ :
        ReportRow).CVEs = "" := by
  exact ⟨by decide, rfl⟩

/-- C3 (amended): the grouper emits exactly one report row per distinct
group key (the keys of the grouping dictionary are duplicate-free and
the emitted rows are a permutation of one row per entry); each entry's
identifier list is non-empty and duplicate-free, and the row's `CVEs`
field is that list joined by `", "` in lexicographically sorted order
(so the underlying identifier set is never empty, though the joined
string is empty when the only identifier is the empty string, and no
identifier is listed twice); and an identifier is in a key's list
exactly when some matched pair produced that key and identifier. -/
theorem C3_grouper_aggregation :
    ∀ (k8s_data : List CleanRow) (wiz_data : List WizRow) (c d : String),
      ((grouped_data k8s_data wiz_data).map Prod.fst).Nodup ∧
      List.Perm (final_rows k8s_data wiz_data c d)
        ((grouped_data k8s_data wiz_data).map (fun p => mkReportRow c d p.1 p.2)) ∧
      (∀ p ∈ grouped_data k8s_data wiz_data,
        p.2 ≠ [] ∧ p.2.Nodup ∧
        List.Perm (pySort pyStrLe p.2) p.2 ∧
        (pySort pyStrLe p.2).Pairwise (fun a b => pyStrLe a b = true) ∧
        (mkReportRow c d p.1 p.2).CVEs = String.intercalate ", " (pySort pyStrLe p.2)) ∧
      (∀ (key : GroupKey) (n : String),
        n ∈ lookupGroup (grouped_data k8s_data wiz_data) key ↔
          ∃ k ∈ k8s_data, ∃ w ∈ wiz_data,
            pyEndsWith k.IMAGEID w.ImageId = true ∧ key = groupKey k w ∧ n = w.Name) := by
  intro k8s_data wiz_data c d
  refine ⟨grouped_keys_nodup k8s_data wiz_data, pySort_perm _ _, ?_,
    fun key n => mem_lookupGroup_grouped_iff⟩
  intro p hp
  rcases grouped_vals k8s_data wiz_data p hp with ⟨h1, h2⟩
  exact ⟨h1, h2, pySort_perm _ _,
    pairwise_pySort pyStrLe pyStrLe_total (fun a b c h h' => pyStrLe_trans h h') _, rfl⟩

/-- C3 witness: the non-emptiness part evaluated on a concrete grouped
entry. -/
theorem C3_grouper_aggregation_witness : (["CVE-1"] : List String) ≠ [] :=
  ((C3_grouper_aggregation [⟨"ns1", "Deployment", "dep1", "img1", "id1"⟩]
      [⟨"id1", "asset1", "Critical", "CVE-1"⟩] "c" "d").2.2.1
    (⟨"ns1", "Deployment", "dep1", "img1", "asset1", "Critical"⟩, ["CVE-1"])
    (by decide)).1

/-- C4: the emitted rows are sorted by the composite key (namespace,
asset name, severity rank) with the stated rank values (`Critical = 0,
High = 1, Medium = 2, Low = 3, Info = 4`, anything else `99`); the sort
is stable (rows equal under the key keep their prior relative order);
the `[Low, Critical, Medium]` example comes out `Critical, Medium, Low`;
and an unranked severity sorts after all ranked ones. -/
theorem C4_sort_order :
    (∀ rows : List ReportRow,
      (pySort report_sort_le rows).Pairwise (fun a b => report_sort_le a b = true)) ∧
    (∀ (rows : List ReportRow) (ns an : String) (sev : Nat),
      (pySort report_sort_le rows).filter
          (fun r => r.Namespace == ns && r.AssetName == an &&
            severity_order r.Severity == sev) =
        rows.filter
          (fun r => r.Namespace == ns && r.AssetName == an &&
            severity_order r.Severity == sev)) ∧
    severity_order "Critical" = 0 ∧ severity_order "High" = 1 ∧
    severity_order "Medium" = 2 ∧ severity_order "Low" = 3 ∧ severity_order "Info" = 4 ∧
    (∀ s : String, s ≠ "Critical" → s ≠ "High" → s ≠ "Medium" → s ≠ "Low" → s ≠ "Info" →
      severity_order s = 99) ∧
    (final_rows [⟨"ns1", "Deployment", "dep1", "img1", "id1"⟩]
        [⟨"id1", "asset1", "Low", "CVE-L"⟩, ⟨"id1", "asset1", "Critical", "CVE-C"⟩,
         ⟨"id1", "asset1", "Medium", "CVE-M"⟩] "c" "d").map ReportRow.Severity =
      ["Critical", "Medium", "Low"] ∧
    (final_rows [⟨"ns1", "Deployment", "dep1", "img1", "id1"⟩]
        [⟨"id1", "asset1", "Low", "CVE-L"⟩, ⟨"id1", "asset1", "Bogus", "CVE-B"⟩,
         ⟨"id1", "asset1", "Critical", "CVE-C"⟩] "c" "d").map ReportRow.Severity =
      ["Critical", "Low", "Bogus"] := by
  refine ⟨?_, ?_, by decide, by decide, by decide, by decide, by decide, ?_, by decide,
    by decide⟩
  · intro rows
    exact pairwise_pySort report_sort_le report_sort_le_total
      (fun a b c h h' => report_sort_le_trans h h') rows
  · intro rows ns an sev
    apply filter_pySort
    intro a b ha hb
    simp only [Bool.and_eq_true, beq_iff_eq] at ha hb
    exact report_sort_le_of_eq_keys (ha.1.1.trans hb.1.1.symm)
      (ha.1.2.trans hb.1.2.symm) (by rw [ha.2, hb.2])
  · intro s h1 h2 h3 h4 h5
    simp [severity_order, h1, h2, h3, h4, h5]

/-- C4 witness: the default-rank part evaluated at a concrete unranked
severity string. -/
theorem C4_sort_order_witness : severity_order "Unknown" = 99 :=
  C4_sort_order.2.2.2.2.2.2.2.1 "Unknown" (by decide) (by decide) (by decide)
    (by decide) (by decide)

/-- C5 counterexample: the deduplicator is not a fixed point on its own
output in general: the raw row `{IMAGE: "img1,<none>", IMAGEID:
"id1,id2"}` cleanses to two rows, one of which carries the `<none>`
sentinel and is dropped by a second pass. -/
theorem C5_counterexample :
    cleanse_k8s_resouces_csv
        ((cleanse_k8s_resouces_csv
          [⟨"ns1", "Deployment", "dep1", "img1,<none>", "id1,id2", []⟩]).map toRaw) ≠
      cleanse_k8s_resouces_csv
        [⟨"ns1", "Deployment", "dep1", "img1,<none>", "id1,id2", []⟩] := by
  decide

/-- C5 (amended): the deduplicator is idempotent on every input whose
rows' comma-separated image and image-id components are all non-empty
and different from the `<none>` sentinel: on such inputs, re-running it
on its own output returns that output unchanged. -/
theorem C5_dedup_idempotent :
    ∀ data : List RawRow,
      (∀ row ∈ data, ∀ s ∈ pySplit row.IMAGE ',', s ≠ "" ∧ s ≠ "<none>") →
      (∀ row ∈ data, ∀ s ∈ pySplit row.IMAGEID ',', s ≠ "" ∧ s ≠ "<none>") →
      cleanse_k8s_resouces_csv ((cleanse_k8s_resouces_csv data).map toRaw) =
        cleanse_k8s_resouces_csv data := by
  intro data hI hD
  have hval := cleanse_valid hI hD
  have hall : ∀ r ∈ cleanse_k8s_resouces_csv data,
      r.IMAGE ≠ "" ∧ r.IMAGE ≠ "<none>" ∧ r.IMAGEID ≠ "" ∧ r.IMAGEID ≠ "<none>" ∧
        ',' ∉ r.IMAGE.data ∧ ',' ∉ r.IMAGEID.data := by
    intro r hr
    rcases hval r hr with ⟨a, b, c, d⟩
    rcases cleanse_comma_free r hr with ⟨e, f⟩
    exact ⟨a, b, c, d, e, f⟩
  rw [cleanse_eq_dedupFirstSeen ((cleanse_k8s_resouces_csv data).map toRaw),
    explodeRows_map_toRaw hall, dedupFirstSeen_of_nodup (nodup_cleanse data)]

/-- C5 witness: idempotence evaluated on a concrete valid input. -/
theorem C5_dedup_idempotent_witness :
    cleanse_k8s_resouces_csv ((cleanse_k8s_resouces_csv
        [⟨"ns1", "Deployment", "dep1", "img1", "id1", []⟩]).map toRaw) =
      cleanse_k8s_resouces_csv [⟨"ns1", "Deployment", "dep1", "img1", "id1", []⟩] :=
  C5_dedup_idempotent [⟨"ns1", "Deployment", "dep1", "img1", "id1", []⟩]
    (by decide) (by decide)

/-- C6: when no inventory digest has any scan digest as a suffix, the
grouping produces zero rows, no artifact is written and the run returns
normally (the function totally evaluates to `none`). -/
theorem C6_empty_result :
    ∀ (k8s_data : List CleanRow) (wiz_data : List WizRow)
      (output_base_path cluster_name scan_date : String),
      (∀ k ∈ k8s_data, ∀ w ∈ wiz_data, pyEndsWith k.IMAGEID w.ImageId = false) →
      generate_final_report k8s_data wiz_data output_base_path cluster_name scan_date =
        none := by
  intro k8s_data wiz_data output_base_path cluster_name scan_date h
  have hrows : final_rows k8s_data wiz_data cluster_name scan_date = [] := by
    rw [final_rows, grouped_data_nil h]
    rfl
  simp only [generate_final_report]
  rw [hrows]
  simp

/-- C6 witness: the empty-result short circuit on concrete non-matching
inputs. -/
theorem C6_empty_result_witness :
    generate_final_report [⟨"ns1", "Deployment", "dep1", "img1", "abc"⟩]
        [⟨"xyz", "asset1", "Critical", "CVE-1"⟩] "reports/x" "c" "d" = none :=
  C6_empty_result _ _ _ _ _ (by decide)

/-- C7: a raw inventory row whose comma-split image list and image-id
list have different lengths is skipped entirely (it contributes no
cleansed rows) and processing continues with the remaining rows. -/
theorem C7_mismatch_skip :
    ∀ (acc : List CleanRow) (row : RawRow) (rest : List RawRow),
      (pySplit row.IMAGE ',').length ≠ (pySplit row.IMAGEID ',').length →
      cleanseRow acc row = acc ∧
        (row :: rest).foldl cleanseRow acc = rest.foldl cleanseRow acc := by
  intro acc row rest h
  have hc : cleanseRow acc row = acc := by
    simp only [cleanseRow]
    by_cases h0 : row.IMAGE = "" ∨ row.IMAGE = "<none>" ∨
        row.IMAGEID = "" ∨ row.IMAGEID = "<none>"
    · rw [if_pos h0]
    · rw [if_neg h0, if_pos h]
  exact ⟨hc, by rw [List.foldl_cons, hc]⟩

/-- C7 witness: the skip evaluated on a concrete mismatched row followed
by a well-formed row. -/
theorem C7_mismatch_skip_witness :
    cleanseRow [] ⟨"ns1", "Deployment", "dep1", "img1,img2", "id1", []⟩ = [] ∧
      ([⟨"ns1", "Deployment", "dep1", "img1,img2", "id1", []⟩,
        ⟨"ns3", "DaemonSet", "ds1", "img3", "id3", []⟩] : List RawRow).foldl
          cleanseRow [] =
        ([⟨"ns3", "DaemonSet", "ds1", "img3", "id3", []⟩] : List RawRow).foldl
          cleanseRow [] :=
  C7_mismatch_skip [] _ _ (by decide)

/-- C8: the pipeline is deterministic: two runs on equal inventory
sequences, equal scan sequences, equal cluster name and equal date
produce identical report row sequences (content and order). -/
theorem C8_determinism :
    ∀ (k8s₁ k8s₂ : List CleanRow) (wiz₁ wiz₂ : List WizRow) (c₁ c₂ d₁ d₂ : String),
      k8s₁ = k8s₂ → wiz₁ = wiz₂ → c₁ = c₂ → d₁ = d₂ →
      final_rows k8s₁ wiz₁ c₁ d₁ = final_rows k8s₂ wiz₂ c₂ d₂ := by
  intro k8s₁ k8s₂ wiz₁ wiz₂ c₁ c₂ d₁ d₂ h1 h2 h3 h4
  rw [h1, h2, h3, h4]

/-- C8 witness: determinism evaluated at concrete equal inputs. -/
theorem C8_determinism_witness :
    final_rows [⟨"ns1", "Deployment", "dep1", "img1", "id1"⟩]
        [⟨"id1", "asset1", "Critical", "CVE-1"⟩] "c" "d" =
      final_rows [⟨"ns1", "Deployment", "dep1", "img1", "id1"⟩]
        [⟨"id1", "asset1", "Critical", "CVE-1"⟩] "c" "d" :=
  C8_determinism _ _ _ _ _ _ _ _ rfl rfl rfl rfl

/-- C9: a scan row whose `ImageId` is the empty string suffix-matches
every inventory row, so its vulnerability name is recorded in the group
of every inventory row in the input. -/
theorem C9_empty_scan_digest :
    ∀ (k8s_data : List CleanRow) (wiz_data : List WizRow) (k : CleanRow) (w : WizRow),
      k ∈ k8s_data → w ∈ wiz_data → w.ImageId = "" →
      w.Name ∈ lookupGroup (grouped_data k8s_data wiz_data) (groupKey k w) := by
  intro k8s_data wiz_data k w hk hw hid
  apply mem_lookupGroup_grouped_iff.mpr
  refine ⟨k, hk, w, hw, ?_, rfl, rfl⟩
  rw [hid]
  exact pyEndsWith_empty _

/-- C9 witness: the empty scan digest evaluated on concrete inputs. -/
theorem C9_empty_scan_digest_witness :
    ("CVE-1" : String) ∈ lookupGroup
        (grouped_data [⟨"ns1", "Deployment", "dep1", "img1", "abc"⟩]
          [⟨"", "asset1", "Critical", "CVE-1"⟩])
        (groupKey ⟨"ns1", "Deployment", "dep1", "img1", "abc"⟩
          ⟨"", "asset1", "Critical", "CVE-1"⟩) :=
  C9_empty_scan_digest _ _ _ _ (by decide) (by decide) rfl

/-- C10: the deduplicator reads only the five fixed columns of each raw
row, so its output (rows of exactly the five fields) is invariant under
changes to any additional input columns, which therefore do not
participate in the duplicate-detection key. -/
theorem C10_extra_columns_dropped :
    ∀ data₁ data₂ : List RawRow, data₁.map toClean = data₂.map toClean →
      cleanse_k8s_resouces_csv data₁ = cleanse_k8s_resouces_csv data₂ := by
  have hrow : ∀ (acc : List CleanRow) (r₁ r₂ : RawRow), toClean r₁ = toClean r₂ →
      cleanseRow acc r₁ = cleanseRow acc r₂ := by
    intro acc r₁ r₂ h
    have h1 : r₁.NAMESPACE = r₂.NAMESPACE := congrArg CleanRow.NAMESPACE h
    have h2 : r₁.PARENT_KIND = r₂.PARENT_KIND := congrArg CleanRow.PARENT_KIND h
    have h3 : r₁.PARENT_NAME = r₂.PARENT_NAME := congrArg CleanRow.PARENT_NAME h
    have h4 : r₁.IMAGE = r₂.IMAGE := congrArg CleanRow.IMAGE h
    have h5 : r₁.IMAGEID = r₂.IMAGEID := congrArg CleanRow.IMAGEID h
    simp only [cleanseRow, h1, h2, h3, h4, h5]
  have haux : ∀ (d₁ d₂ : List RawRow) (acc : List CleanRow),
      d₁.map toClean = d₂.map toClean →
      d₁.foldl cleanseRow acc = d₂.foldl cleanseRow acc := by
    intro d₁
    induction d₁ with
    | nil =>
      intro d₂ acc h
      cases d₂ with
      | nil => rfl
      | cons r rs => simp at h
    | cons r rs ih =>
      intro d₂ acc h
      cases d₂ with
      | nil => simp at h
      | cons r₂ rs₂ =>
        simp only [List.map_cons, List.cons.injEq] at h
        rw [List.foldl_cons, List.foldl_cons, hrow acc r r₂ h.1]
        exact ih rs₂ _ h.2
  intro d₁ d₂ h
  exact haux d₁ d₂ [] h

/-- C10 witness: extra-column invariance evaluated on a concrete pair of
inputs differing only in a `LABELS` column. -/
theorem C10_extra_columns_dropped_witness :
    cleanse_k8s_resouces_csv
        [⟨"ns1", "Deployment", "dep1", "img1", "id1", [("LABELS", "app=a")]⟩] =
      cleanse_k8s_resouces_csv [⟨"ns1", "Deployment", "dep1", "img1", "id1", []⟩] :=
  C10_extra_columns_dropped _ _ (by decide)
